import Mathlib

/-!
Shallow embedding of the `Embed` attachment abstraction of
`src/fixieai/agents-ts/src/embed.ts` (fixie-sdk), together with models of the
two external platform primitives it delegates to: the WHATWG `new URL(str)`
parse test (used by `isURL`) and Node's base64 codec
(`Buffer.prototype.toString('base64')` / `Buffer.from(_, 'base64')`).

The TypeScript source defines a class `Embed` with fields `contentType` and
`base64Data`, a constructor that rejects a URL-shaped `base64Data` payload,
and a static `fromUri` that performs one HTTP GET, demands status 200, and
re-encodes the response body as base64 through the same constructor.  Errors
are modelled after the spec's taxonomy (`InvalidPayload`,
`UnexpectedResponseStatus(code)`, `NetworkFailure`, `DecodeError`); the
network is modelled as an oracle from URIs to responses, and `fromUri`
additionally returns the trace of GET requests it issued.
-/

namespace FixieSdk

/-! ## Base64 codec

Models Node's `Buffer.prototype.toString('base64')` (RFC 4648 alphabet with
`=` padding), the encoder applied by `Embed.fromUri` to the fetched body.
The decoder is the inverse used by the spec-modelled `asBytes` accessor. -/

/-- The RFC 4648 base64 digit for a 6-bit value (`A`–`Z`, `a`–`z`, `0`–`9`,
`+`, `/`); values ≥ 64 never arise from the encoder. -/
def b64char (n : Nat) : Char :=
  if n < 26 then Char.ofNat (65 + n)
  else if n < 52 then Char.ofNat (97 + (n - 26))
  else if n < 62 then Char.ofNat (48 + (n - 52))
  else if n = 62 then '+'
  else '/'

/-- The 6-bit value of a base64 digit, `none` for every character outside the
RFC 4648 alphabet (including `=`). -/
def b64val (c : Char) : Option Nat :=
  if 'A' ≤ c ∧ c ≤ 'Z' then some (c.toNat - 65)
  else if 'a' ≤ c ∧ c ≤ 'z' then some (c.toNat - 97 + 26)
  else if '0' ≤ c ∧ c ≤ '9' then some (c.toNat - 48 + 52)
  else if c = '+' then some 62
  else if c = '/' then some 63
  else none

/-- RFC 4648 base64 encoding of a byte list (each byte < 256), with `=`
padding — the pure content of `response.body.toString('base64')` in
`Embed.fromUri`. -/
def encodeB64 : List Nat → List Char
  | [] => []
  | [a] => [b64char (a / 4), b64char (a % 4 * 16), '=', '=']
  | [a, b] => [b64char (a / 4), b64char (a % 4 * 16 + b / 16), b64char (b % 16 * 4), '=']
  | a :: b :: c :: rest =>
    b64char (a / 4) :: b64char (a % 4 * 16 + b / 16) ::
      b64char (b % 16 * 4 + c / 64) :: b64char (c % 64) :: encodeB64 rest

/-- `encodeB64` packaged as a `String`. -/
def encodeB64String (B : List Nat) : String := String.mk (encodeB64 B)

/-- Modelled from the spec: strict RFC 4648 base64 decoding, the pure
"decoded raw bytes" transform behind the spec's `asBytes` accessor (the
accessor is described in §6 of the spec but has no implementation under
`src/`).  Rejects any character outside the alphabet, any group not of four
characters, misplaced padding, and non-canonical trailing bits, returning
`none` (the spec's `DecodeError`). -/
def decodeB64 : List Char → Option (List Nat)
  | [] => some []
  | c1 :: c2 :: c3 :: c4 :: rest =>
    match b64val c1, b64val c2 with
    | some v1, some v2 =>
      if c3 = '=' then
        if c4 = '=' ∧ rest = [] ∧ v2 % 16 = 0 then
          some [v1 * 4 + v2 / 16]
        else none
      else
        match b64val c3 with
        | some v3 =>
          if c4 = '=' then
            if rest = [] ∧ v3 % 4 = 0 then
              some [v1 * 4 + v2 / 16, v2 % 16 * 16 + v3 / 4]
            else none
          else
            match b64val c4 with
            | some v4 =>
              match decodeB64 rest with
              | some bs => some ((v1 * 4 + v2 / 16) :: (v2 % 16 * 16 + v3 / 4) ::
                  (v3 % 4 * 64 + v4) :: bs)
              | none => none
            | none => none
        | none => none
    | _, _ => none
  | _ => none

/-- A string is valid base64 when the strict decoder accepts it. -/
def validBase64 (s : String) : Bool := (decodeB64 s.data).isSome

/-! ## URL-shape test

`embed.ts` lines 3–10 define `isURL` by attempting `new URL(str)` and
reporting whether it throws.  `new URL` is a platform builtin (not part of
this repository); we model its success condition: a WHATWG URL string must
begin with a scheme — an ASCII letter followed by letters, digits, `+`, `-`
or `.` — terminated by `:`.  This scheme test is what the `Embed`
constructor's guard can observe; the source comment itself calls the guard a
heuristic ("this won't catch every type of non-base64 string"). -/

/-- First character of a URL scheme: an ASCII letter. -/
def isSchemeStartChar (c : Char) : Bool :=
  ('A' ≤ c && c ≤ 'Z') || ('a' ≤ c && c ≤ 'z')

/-- Subsequent character of a URL scheme: letter, digit, `+`, `-` or `.`. -/
def isSchemeChar (c : Char) : Bool :=
  isSchemeStartChar c || ('0' ≤ c && c ≤ '9') || c = '+' || c = '-' || c = '.'

/-- Scans scheme characters until the terminating `:`; fails at the first
character that is neither. -/
def schemeTail : List Char → Bool
  | [] => false
  | c :: rest => if c = ':' then true else isSchemeChar c && schemeTail rest

/-- Whether a character list starts with a URL scheme terminated by `:`. -/
def hasScheme : List Char → Bool
  | [] => false
  | c :: rest => isSchemeStartChar c && schemeTail rest

/-- Model of `isURL` (embed.ts lines 3–10): whether `new URL(str)` succeeds,
i.e. whether `str` starts with a scheme terminated by `:`. -/
def isURL (s : String) : Bool := hasScheme s.data

/-! ## The Embed class -/

/-- Errors of the `Embed` abstraction, following the spec's taxonomy (§7).
In the TypeScript source these are all thrown as `Error` values with
distinguishing messages. -/
inductive EmbedError where
  | invalidPayload (payload : String)
  | unexpectedResponseStatus (code : Nat)
  | networkFailure
  | decodeError
  deriving DecidableEq, Repr

/-- The `Embed` class of embed.ts: a MIME content type together with the
base64-encoded payload. Both fields are `readonly` in the source. -/
structure Embed where
  contentType : String
  base64Data : String
  deriving DecidableEq, Repr

/-- The `Embed` constructor (embed.ts lines 16–34): stores the two fields
after the URL-shape guard on `base64Data`; a URL-shaped payload throws
(`InvalidPayload`). -/
def Embed.construct (contentType base64Data : String) : Except EmbedError Embed :=
  if isURL base64Data then
    .error (.invalidPayload base64Data)
  else
    .ok ⟨contentType, base64Data⟩

/-- The stored base64 payload — the spec's `asBase64()` accessor, i.e. the
public `base64Data` field. -/
def Embed.asBase64 (e : Embed) : String := e.base64Data

/-- Modelled from the spec: the `asBytes` accessor (§6) is absent from
`src/`; per the spec it is a pure decode of the stored base64 text, failing
with `DecodeError` on malformed base64. -/
def Embed.asBytes (e : Embed) : Except EmbedError (List Nat) :=
  match decodeB64 e.base64Data.data with
  | some bs => .ok bs
  | none => .error .decodeError

/-- An HTTP response as observed by `Embed.fromUri` through `got`: status
code and raw body bytes (`responseType: 'buffer'`). -/
structure HttpResponse where
  statusCode : Nat
  body : List Nat
  deriving DecidableEq, Repr

/-- `Embed.fromUri` (embed.ts lines 36–46).  The network is an oracle from
URIs to either a transport failure or a delivered response; the second
component of the result is the trace of GET requests issued.  The source
performs a single `got(uri)` call, throws on a non-200 status, and otherwise
builds the Embed through the constructor from the base64-encoded body. -/
def Embed.fromUri (net : String → Except EmbedError HttpResponse)
    (contentType uri : String) : Except EmbedError Embed × List String :=
  (match net uri with
   | .error e => .error e
   | .ok response =>
     if response.statusCode ≠ 200 then
       .error (.unexpectedResponseStatus response.statusCode)
     else
       Embed.construct contentType (encodeB64String response.body),
   [uri])


theorem char_toNat_ofNat {n : Nat} (h : n < 55296) : (Char.ofNat n).toNat = n := by
  rw [Char.ofNat, dif_pos (Or.inl h)]
  rfl

theorem b64val_b64char {k : Nat} (h : k < 64) : b64val (b64char k) = some k := by
  revert k
  decide

theorem b64char_ne_eq {k : Nat} (h : k < 64) : b64char k ≠ '=' := by
  revert k
  decide

theorem b64char_ne_colon (n : Nat) : b64char n ≠ ':' := by
  unfold b64char
  have h58 : (':' : Char).toNat = 58 := rfl
  split
  · intro hc
    have ht := congrArg Char.toNat hc
    rw [char_toNat_ofNat (by omega), h58] at ht
    omega
  split
  · intro hc
    have ht := congrArg Char.toNat hc
    rw [char_toNat_ofNat (by omega), h58] at ht
    omega
  split
  · intro hc
    have ht := congrArg Char.toNat hc
    rw [char_toNat_ofNat (by omega), h58] at ht
    omega
  split
  · decide
  · decide

theorem bchar_bval {c : Char} {v : Nat} (h : b64val c = some v) :
    v < 64 ∧ b64char v = c := by
  unfold b64val at h
  split at h
  · rename_i hr
    have h1 : 65 ≤ c.toNat := hr.1
    have h2 : c.toNat ≤ 90 := hr.2
    injection h with hv
    subst hv
    refine ⟨by omega, ?_⟩
    unfold b64char
    rw [if_pos (by omega), show 65 + (c.toNat - 65) = c.toNat by omega, Char.ofNat_toNat]
  split at h
  · rename_i hr
    have h1 : 97 ≤ c.toNat := hr.1
    have h2 : c.toNat ≤ 122 := hr.2
    injection h with hv
    subst hv
    refine ⟨by omega, ?_⟩
    unfold b64char
    rw [if_neg (by omega), if_pos (by omega),
      show 97 + (c.toNat - 97 + 26 - 26) = c.toNat by omega, Char.ofNat_toNat]
  split at h
  · rename_i hr
    have h1 : 48 ≤ c.toNat := hr.1
    have h2 : c.toNat ≤ 57 := hr.2
    injection h with hv
    subst hv
    refine ⟨by omega, ?_⟩
    unfold b64char
    rw [if_neg (by omega), if_neg (by omega), if_pos (by omega),
      show 48 + (c.toNat - 48 + 52 - 52) = c.toNat by omega, Char.ofNat_toNat]
  split at h
  · rename_i hr
    injection h with hv
    subst hv
    subst hr
    exact ⟨by omega, rfl⟩
  split at h
  · rename_i hr
    injection h with hv
    subst hv
    subst hr
    exact ⟨by omega, rfl⟩
  · exact absurd h (by simp)


theorem decodeB64_encodeB64 (B : List Nat) (h : ∀ x ∈ B, x < 256) :
    decodeB64 (encodeB64 B) = some B := by
  induction B using encodeB64.induct with
  | case1 => rfl
  | case2 a =>
    have ha : a < 256 := h a (by simp)
    simp only [encodeB64, decodeB64, b64val_b64char (show a / 4 < 64 by omega),
      b64val_b64char (show a % 4 * 16 < 64 by omega)]
    rw [if_pos trivial, if_pos ⟨trivial, trivial, by omega⟩,
      show a / 4 * 4 + a % 4 * 16 / 16 = a by omega]
  | case3 a b =>
    have ha : a < 256 := h a (by simp)
    have hb : b < 256 := h b (by simp)
    simp only [encodeB64, decodeB64, b64val_b64char (show a / 4 < 64 by omega),
      b64val_b64char (show a % 4 * 16 + b / 16 < 64 by omega),
      b64val_b64char (show b % 16 * 4 < 64 by omega)]
    rw [if_neg (b64char_ne_eq (show b % 16 * 4 < 64 by omega)),
      if_pos trivial, if_pos ⟨trivial, by omega⟩]
    have e1 : a / 4 * 4 + (a % 4 * 16 + b / 16) / 16 = a := by omega
    have e2 : (a % 4 * 16 + b / 16) % 16 * 16 + b % 16 * 4 / 4 = b := by omega
    rw [e1, e2]
  | case4 a b c rest ih =>
    have ha : a < 256 := h a (by simp)
    have hb : b < 256 := h b (by simp)
    have hc : c < 256 := h c (by simp)
    have hrest : ∀ x ∈ rest, x < 256 := fun x hx => h x (by simp [hx])
    simp only [encodeB64, decodeB64, b64val_b64char (show a / 4 < 64 by omega),
      b64val_b64char (show a % 4 * 16 + b / 16 < 64 by omega),
      b64val_b64char (show b % 16 * 4 + c / 64 < 64 by omega),
      b64val_b64char (show c % 64 < 64 by omega)]
    rw [if_neg (b64char_ne_eq (show b % 16 * 4 + c / 64 < 64 by omega))]
    rw [if_neg (b64char_ne_eq (show c % 64 < 64 by omega))]
    rw [ih hrest]
    have e1 : a / 4 * 4 + (a % 4 * 16 + b / 16) / 16 = a := by omega
    have e2 : (a % 4 * 16 + b / 16) % 16 * 16 + (b % 16 * 4 + c / 64) / 4 = b := by omega
    have e3 : (b % 16 * 4 + c / 64) % 4 * 64 + c % 64 = c := by omega
    rw [e1, e2, e3]


theorem encodeB64_decodeB64 (l : List Char) :
    ∀ bs, decodeB64 l = some bs → encodeB64 bs = l := by
  induction l using decodeB64.induct with
  | case1 =>
    intro bs h
    injection h with h
    subst h
    rfl
  | case2 c1 c2 c4 rest v1 v2 hv2 hv1 hcond =>
    intro bs h
    obtain ⟨rfl, rfl, hm⟩ := hcond
    obtain ⟨hb1, hc1⟩ := bchar_bval hv1
    obtain ⟨hb2, hc2⟩ := bchar_bval hv2
    simp [decodeB64, hv1, hv2, hm] at h
    subst h
    simp only [encodeB64]
    have e1 : (v1 * 4 + v2 / 16) / 4 = v1 := by omega
    have e2 : (v1 * 4 + v2 / 16) % 4 * 16 = v2 := by omega
    rw [e1, e2, hc1, hc2]
  | case3 c1 c2 c4 rest v1 v2 hv2 hv1 hcond =>
    intro bs h
    simp [decodeB64, hv1, hv2, hcond] at h
  | case4 c1 c2 c3 rest v1 v2 hv2 hv1 hc3 v3 hv3 hcond =>
    intro bs h
    obtain ⟨rfl, hm⟩ := hcond
    obtain ⟨hb1, hc1⟩ := bchar_bval hv1
    obtain ⟨hb2, hc2⟩ := bchar_bval hv2
    obtain ⟨hb3, hc3'⟩ := bchar_bval hv3
    simp [decodeB64, hv1, hv2, hv3, hc3, hm] at h
    subst h
    simp only [encodeB64]
    have e1 : (v1 * 4 + v2 / 16) / 4 = v1 := by omega
    have e2 : (v1 * 4 + v2 / 16) % 4 * 16 + (v2 % 16 * 16 + v3 / 4) / 16 = v2 := by omega
    have e3 : (v2 % 16 * 16 + v3 / 4) % 16 * 4 = v3 := by omega
    rw [e1, e2, e3, hc1, hc2, hc3']
  | case5 c1 c2 c3 rest v1 v2 hv2 hv1 hc3 v3 hv3 hcond =>
    intro bs h
    simp [decodeB64, hv1, hv2, hv3, hc3, hcond] at h
  | case6 c1 c2 c3 c4 rest v1 v2 hv2 hv1 hc3 v3 hv3 hc4 v4 hv4 bs' hrest ih =>
    intro bs h
    obtain ⟨hb1, hc1⟩ := bchar_bval hv1
    obtain ⟨hb2, hc2⟩ := bchar_bval hv2
    obtain ⟨hb3, hc3'⟩ := bchar_bval hv3
    obtain ⟨hb4, hc4'⟩ := bchar_bval hv4
    simp [decodeB64, hv1, hv2, hv3, hv4, hc3, hc4, hrest] at h
    subst h
    simp only [encodeB64]
    have e1 : (v1 * 4 + v2 / 16) / 4 = v1 := by omega
    have e2 : (v1 * 4 + v2 / 16) % 4 * 16 + (v2 % 16 * 16 + v3 / 4) / 16 = v2 := by omega
    have e3 : (v2 % 16 * 16 + v3 / 4) % 16 * 4 + (v3 % 4 * 64 + v4) / 64 = v3 := by omega
    have e4 : (v3 % 4 * 64 + v4) % 64 = v4 := by omega
    rw [e1, e2, e3, e4, hc1, hc2, hc3', hc4', ih bs' hrest]
  | case7 c1 c2 c3 c4 rest v1 v2 hv2 hv1 hc3 v3 hv3 hc4 v4 hv4 hrestnone ih =>
    intro bs h
    simp [decodeB64, hv1, hv2, hv3, hv4, hc3, hc4, hrestnone] at h
  | case8 c1 c2 c3 c4 rest v1 v2 hv2 hv1 hc3 v3 hv3 hc4 hv4none =>
    intro bs h
    simp [decodeB64, hv1, hv2, hv3, hv4none, hc3, hc4] at h
  | case9 c1 c2 c3 c4 rest v1 v2 hv2 hv1 hc3 hv3none =>
    intro bs h
    simp [decodeB64, hv1, hv2, hv3none, hc3] at h
  | case10 c1 c2 c3 c4 rest hnone =>
    intro bs h
    simp only [decodeB64] at h
    exact absurd h (by simp)
  | case11 t hne hnc =>
    intro bs h
    match t, hne, hnc with
    | [], hne, _ => exact absurd rfl (by exact fun hh => hne hh)
    | c1 :: c2 :: c3 :: c4 :: rest, _, hnc => exact absurd rfl (hnc c1 c2 c3 c4 rest)
    | [c1], _, _ => simp [decodeB64] at h
    | [c1, c2], _, _ => simp [decodeB64] at h
    | [c1, c2, c3], _, _ => simp [decodeB64] at h


theorem decodeB64_chars (l : List Char) :
    ∀ bs, decodeB64 l = some bs → ∀ c ∈ l, (b64val c).isSome ∨ c = '=' := by
  induction l using decodeB64.induct with
  | case1 =>
    intro bs _ c hc
    simp at hc
  | case2 c1 c2 c4 rest v1 v2 hv2 hv1 hcond =>
    intro bs _ c hc
    obtain ⟨rfl, rfl, _⟩ := hcond
    simp only [List.mem_cons, List.not_mem_nil, or_false] at hc
    rcases hc with rfl | rfl | rfl | rfl
    · exact Or.inl (by simp [hv1])
    · exact Or.inl (by simp [hv2])
    · exact Or.inr rfl
    · exact Or.inr rfl
  | case3 c1 c2 c4 rest v1 v2 hv2 hv1 hcond =>
    intro bs h
    simp [decodeB64, hv1, hv2, hcond] at h
  | case4 c1 c2 c3 rest v1 v2 hv2 hv1 hc3 v3 hv3 hcond =>
    intro bs _ c hc
    obtain ⟨rfl, _⟩ := hcond
    simp only [List.mem_cons, List.not_mem_nil, or_false] at hc
    rcases hc with rfl | rfl | rfl | rfl
    · exact Or.inl (by simp [hv1])
    · exact Or.inl (by simp [hv2])
    · exact Or.inl (by simp [hv3])
    · exact Or.inr rfl
  | case5 c1 c2 c3 rest v1 v2 hv2 hv1 hc3 v3 hv3 hcond =>
    intro bs h
    simp [decodeB64, hv1, hv2, hv3, hc3, hcond] at h
  | case6 c1 c2 c3 c4 rest v1 v2 hv2 hv1 hc3 v3 hv3 hc4 v4 hv4 bs' hrest ih =>
    intro bs _ c hc
    simp only [List.mem_cons] at hc
    rcases hc with rfl | rfl | rfl | rfl | hmem
    · exact Or.inl (by simp [hv1])
    · exact Or.inl (by simp [hv2])
    · exact Or.inl (by simp [hv3])
    · exact Or.inl (by simp [hv4])
    · exact ih bs' hrest c hmem
  | case7 c1 c2 c3 c4 rest v1 v2 hv2 hv1 hc3 v3 hv3 hc4 v4 hv4 hrestnone ih =>
    intro bs h
    simp [decodeB64, hv1, hv2, hv3, hv4, hc3, hc4, hrestnone] at h
  | case8 c1 c2 c3 c4 rest v1 v2 hv2 hv1 hc3 v3 hv3 hc4 hv4none =>
    intro bs h
    simp [decodeB64, hv1, hv2, hv3, hv4none, hc3, hc4] at h
  | case9 c1 c2 c3 c4 rest v1 v2 hv2 hv1 hc3 hv3none =>
    intro bs h
    simp [decodeB64, hv1, hv2, hv3none, hc3] at h
  | case10 c1 c2 c3 c4 rest hnone =>
    intro bs h
    simp only [decodeB64] at h
    exact absurd h (by simp)
  | case11 t hne hnc =>
    intro bs h
    match t, hne, hnc with
    | [], hne, _ => exact absurd rfl (by exact fun hh => hne hh)
    | c1 :: c2 :: c3 :: c4 :: rest, _, hnc => exact absurd rfl (hnc c1 c2 c3 c4 rest)
    | [c1], _, _ => simp [decodeB64] at h
    | [c1, c2], _, _ => simp [decodeB64] at h
    | [c1, c2, c3], _, _ => simp [decodeB64] at h

theorem schemeTail_colon (l : List Char) (h : schemeTail l = true) : ':' ∈ l := by
  induction l with
  | nil => simp [schemeTail] at h
  | cons c rest ih =>
    by_cases hc : c = ':'
    · simp [hc]
    · simp only [schemeTail, if_neg hc, Bool.and_eq_true] at h
      exact List.mem_cons_of_mem c (ih h.2)

theorem hasScheme_colon (l : List Char) (h : hasScheme l = true) : ':' ∈ l := by
  cases l with
  | nil => simp [hasScheme] at h
  | cons c rest =>
    simp only [hasScheme, Bool.and_eq_true] at h
    by_cases hc : c = ':'
    · simp [hc]
    · have := schemeTail_colon rest ?_
      · exact List.mem_cons_of_mem c this
      · cases rest with
        | nil => simp [schemeTail] at h
        | cons d t => exact h.2


theorem colon_not_mem_encodeB64 (B : List Nat) : ':' ∉ encodeB64 B := by
  induction B using encodeB64.induct with
  | case1 => simp [encodeB64]
  | case2 a =>
    simp only [encodeB64, List.mem_cons, List.not_mem_nil, or_false]
    push_neg
    exact ⟨fun hh => b64char_ne_colon _ hh.symm, fun hh => b64char_ne_colon _ hh.symm,
      by decide, by decide⟩
  | case3 a b =>
    simp only [encodeB64, List.mem_cons, List.not_mem_nil, or_false]
    push_neg
    exact ⟨fun hh => b64char_ne_colon _ hh.symm, fun hh => b64char_ne_colon _ hh.symm,
      fun hh => b64char_ne_colon _ hh.symm, by decide⟩
  | case4 a b c rest ih =>
    simp only [encodeB64, List.mem_cons]
    push_neg
    exact ⟨fun hh => b64char_ne_colon _ hh.symm, fun hh => b64char_ne_colon _ hh.symm,
      fun hh => b64char_ne_colon _ hh.symm, fun hh => b64char_ne_colon _ hh.symm, ih⟩

theorem isURL_encodeB64String (B : List Nat) : isURL (encodeB64String B) = false := by
  by_contra hne
  have h : hasScheme (encodeB64 B) = true := by
    have : isURL (encodeB64String B) = true := by
      cases hh : isURL (encodeB64String B)
      · exact absurd hh hne
      · rfl
    exact this
  exact colon_not_mem_encodeB64 B (hasScheme_colon _ h)

theorem validBase64_not_isURL (s : String) (h : validBase64 s = true) : isURL s = false := by
  unfold validBase64 at h
  obtain ⟨bs, hbs⟩ := Option.isSome_iff_exists.mp h
  by_contra hne
  have hu : isURL s = true := by
    cases hh : isURL s
    · exact absurd hh hne
    · rfl
  have hmem : ':' ∈ s.data := hasScheme_colon _ hu
  rcases decodeB64_chars s.data bs hbs ':' hmem with hv | he
  · exact absurd hv (by decide)
  · exact absurd he (by decide)

theorem decodeB64_none_of_bang {l : List Char} (h : '!' ∈ l) : decodeB64 l = none := by
  cases hd : decodeB64 l with
  | none => rfl
  | some bs =>
    rcases decodeB64_chars l bs hd '!' h with hv | he
    · exact absurd hv (by decide)
    · exact absurd he (by decide)


/-- Claim C1: for every valid base64 string `b` and content type `c`, inline
construction succeeds (the URI-shape guard does not fire, since no valid
base64 string parses as a URL) and the stored base64 payload (`asBase64`) is
exactly `b`. -/
theorem c1_construct_valid_base64 (b c : String) (h : validBase64 b = true) :
    Embed.construct c b = .ok ⟨c, b⟩ ∧ (Embed.mk c b).asBase64 = b := by
  refine ⟨?_, rfl⟩
  unfold Embed.construct
  rw [validBase64_not_isURL b h]
  simp

theorem c1_witness :
    validBase64 "TWFu" = true ∧
      (Embed.construct "text/plain" "TWFu" = .ok ⟨"text/plain", "TWFu"⟩ ∧
        (Embed.mk "text/plain" "TWFu").asBase64 = "TWFu") :=
  ⟨by decide, c1_construct_valid_base64 "TWFu" "text/plain" (by decide)⟩

/-- Claim C2: for every string `u` that parses as a well-formed URI and every
content type `c`, inline construction fails with `InvalidPayload` and no
Embed is produced. -/
theorem c2_construct_url_fails (c u : String) (h : isURL u = true) :
    Embed.construct c u = .error (.invalidPayload u) := by
  unfold Embed.construct
  rw [h]
  simp

theorem c2_witness :
    isURL "https://example.com/x" = true ∧
      Embed.construct "text/plain" "https://example.com/x" =
        .error (.invalidPayload "https://example.com/x") :=
  ⟨by decide, c2_construct_url_fails "text/plain" "https://example.com/x" (by decide)⟩


/-- Claim C3: if the remote endpoint responds with status 200 and body bytes
`B`, then `fromUri` succeeds with an Embed whose decoded payload (`asBytes`)
is exactly `B` and whose `contentType` is `c`. -/
theorem c3_fetch_success (net : String → Except EmbedError HttpResponse)
    (c uri : String) (B : List Nat) (hB : ∀ x ∈ B, x < 256)
    (hnet : net uri = .ok ⟨200, B⟩) :
    ∃ e, (Embed.fromUri net c uri).1 = .ok e ∧ e.asBytes = .ok B ∧
      e.contentType = c := by
  refine ⟨⟨c, encodeB64String B⟩, ?_, ?_, rfl⟩
  · unfold Embed.fromUri
    rw [hnet]
    simp only [ne_eq, not_true_eq_false, if_false]
    unfold Embed.construct
    rw [isURL_encodeB64String]
    simp
  · unfold Embed.asBytes
    rw [show (Embed.mk c (encodeB64String B)).base64Data = encodeB64String B from rfl,
      show (encodeB64String B).data = encodeB64 B from rfl,
      decodeB64_encodeB64 B hB]

theorem c3_witness :
    (∀ x ∈ [72, 105], x < 256) ∧
      (fun _ : String => (.ok ⟨200, [72, 105]⟩ : Except EmbedError HttpResponse))
          "http://e/x" = .ok ⟨200, [72, 105]⟩ ∧
      ∃ e, (Embed.fromUri
          (fun _ => .ok ⟨200, [72, 105]⟩) "text/plain" "http://e/x").1 = .ok e ∧
        e.asBytes = .ok [72, 105] ∧ e.contentType = "text/plain" :=
  ⟨by decide, rfl,
    c3_fetch_success (fun _ => .ok ⟨200, [72, 105]⟩) "text/plain" "http://e/x"
      [72, 105] (by decide) rfl⟩

/-- Claim C4: if the remote endpoint responds with any non-200 status, then
`fromUri` fails with `UnexpectedResponseStatus` carrying the observed status
code, and no Embed is produced. -/
theorem c4_fetch_non200 (net : String → Except EmbedError HttpResponse)
    (c uri : String) (r : HttpResponse) (hnet : net uri = .ok r)
    (hs : r.statusCode ≠ 200) :
    (Embed.fromUri net c uri).1 = .error (.unexpectedResponseStatus r.statusCode) := by
  unfold Embed.fromUri
  rw [hnet]
  simp [hs]

theorem c4_witness :
    (fun _ : String => (.ok ⟨404, []⟩ : Except EmbedError HttpResponse))
        "http://e/x" = .ok ⟨404, []⟩ ∧
      (404 : Nat) ≠ 200 ∧
      (Embed.fromUri (fun _ => .ok ⟨404, []⟩) "text/plain" "http://e/x").1 =
        .error (.unexpectedResponseStatus 404) :=
  ⟨rfl, by decide,
    c4_fetch_non200 (fun _ => .ok ⟨404, []⟩) "text/plain" "http://e/x" ⟨404, []⟩
      rfl (by decide)⟩


/-- Claim C5: every invocation of `fromUri` issues exactly one HTTP GET, to
`uri`: the request trace is `[uri]` on success and on every failure alike —
no retry, no backoff; the resulting Embed is a pure value, so no further
network access occurs for it. -/
theorem c5_single_get (net : String → Except EmbedError HttpResponse)
    (c uri : String) : (Embed.fromUri net c uri).2 = [uri] := rfl

/-- Claim C6: a successful fetch yields exactly the Embed produced by the
inline constructor on the base64-encoded body — the two construction paths
agree on the fetched bytes. -/
theorem c6_fetch_eq_inline (net : String → Except EmbedError HttpResponse)
    (c uri : String) (B : List Nat) (hnet : net uri = .ok ⟨200, B⟩) :
    (Embed.fromUri net c uri).1 = Embed.construct c (encodeB64String B) := by
  unfold Embed.fromUri
  rw [hnet]
  simp

theorem c6_witness :
    (fun _ : String => (.ok ⟨200, [1, 2, 3]⟩ : Except EmbedError HttpResponse))
        "http://e/y" = .ok ⟨200, [1, 2, 3]⟩ ∧
      (Embed.fromUri (fun _ => .ok ⟨200, [1, 2, 3]⟩) "image/png" "http://e/y").1 =
        Embed.construct "image/png" (encodeB64String [1, 2, 3]) :=
  ⟨rfl, c6_fetch_eq_inline (fun _ => .ok ⟨200, [1, 2, 3]⟩) "image/png" "http://e/y"
    [1, 2, 3] rfl⟩

/-- Claim C7: `asBytes` on an Embed built from valid base64 `b` returns
exactly the bytes that decoding `b` produces, and re-encoding those bytes
reproduces `b` — the decode/encode round trip. -/
theorem c7_roundtrip (c b : String) (h : validBase64 b = true) :
    ∃ e bs, Embed.construct c b = .ok e ∧ e.asBytes = .ok bs ∧
      decodeB64 b.data = some bs ∧ encodeB64String bs = b := by
  unfold validBase64 at h
  obtain ⟨bs, hbs⟩ := Option.isSome_iff_exists.mp h
  refine ⟨⟨c, b⟩, bs, ?_, ?_, hbs, ?_⟩
  · unfold Embed.construct
    rw [validBase64_not_isURL b (by unfold validBase64; rw [hbs]; rfl)]
    simp
  · unfold Embed.asBytes
    rw [show (Embed.mk c b).base64Data = b from rfl, hbs]
  · unfold encodeB64String
    rw [encodeB64_decodeB64 b.data bs hbs]

theorem c7_witness :
    validBase64 "TWFu" = true ∧
      ∃ e bs, Embed.construct "text/plain" "TWFu" = .ok e ∧ e.asBytes = .ok bs ∧
        decodeB64 "TWFu".data = some bs ∧ encodeB64String bs = "TWFu" :=
  ⟨by decide, c7_roundtrip "text/plain" "TWFu" (by decide)⟩

/-- Claim C8: there are non-base64 strings (e.g. `"!!!!"`, which contains
`'!'`) that do not parse as a URI and for which inline construction
nevertheless succeeds: beyond the URI-shape heuristic, no base64
well-formedness is enforced at construction. -/
theorem c8_lenient_construct :
    validBase64 "!!!!" = false ∧ isURL "!!!!" = false ∧
      Embed.construct "text/plain" "!!!!" = .ok ⟨"text/plain", "!!!!"⟩ :=
  ⟨by decide, by decide, rfl⟩


/-- Claim C9: on every Embed successfully constructed from a syntactically
invalid base64 string (e.g. one containing the character `'!'`), the
raw-byte view `asBytes` fails with `DecodeError`. -/
theorem c9_invalid_base64_asBytes (c s : String) (e : Embed)
    (hinv : validBase64 s = false) (hc : Embed.construct c s = .ok e) :
    e.asBytes = .error .decodeError := by
  have hnone : decodeB64 s.data = none := by
    unfold validBase64 at hinv
    cases hd : decodeB64 s.data with
    | none => rfl
    | some bs => rw [hd] at hinv; simp at hinv
  unfold Embed.construct at hc
  by_cases hu : isURL s
  · rw [if_pos hu] at hc
    exact absurd hc (by simp)
  · rw [if_neg hu] at hc
    injection hc with hc
    subst hc
    unfold Embed.asBytes
    rw [show (Embed.mk c s).base64Data = s from rfl, hnone]

theorem c9_witness :
    validBase64 "ab!d" = false ∧
      Embed.construct "text/plain" "ab!d" = .ok ⟨"text/plain", "ab!d"⟩ ∧
      (Embed.mk "text/plain" "ab!d").asBytes = .error .decodeError :=
  ⟨by decide, rfl,
    c9_invalid_base64_asBytes "text/plain" "ab!d" ⟨"text/plain", "ab!d"⟩
      (by decide) rfl⟩

/-- Claim C10: every Embed ever successfully created — by the inline
constructor or by the fetch path — stores a `base64Data` that does not parse
as a URL; moreover for every byte sequence `B` the base64 encoding of `B`
contains no `':'`, so the constructor call inside `fromUri` can never raise
`InvalidPayload`: a delivered 200 response always yields an Embed. -/
theorem c10_invariant :
    (∀ c b e, Embed.construct c b = .ok e → isURL e.base64Data = false) ∧
      (∀ B : List Nat, ':' ∉ encodeB64 B ∧ isURL (encodeB64String B) = false) ∧
      (∀ (net : String → Except EmbedError HttpResponse) c uri r,
        net uri = .ok r → r.statusCode = 200 →
        (Embed.fromUri net c uri).1 = .ok ⟨c, encodeB64String r.body⟩) := by
  refine ⟨?_, ?_, ?_⟩
  · intro c b e hc
    unfold Embed.construct at hc
    by_cases hu : isURL b
    · rw [if_pos hu] at hc
      exact absurd hc (by simp)
    · rw [if_neg hu] at hc
      injection hc with hc
      subst hc
      simpa using hu
  · intro B
    exact ⟨colon_not_mem_encodeB64 B, isURL_encodeB64String B⟩
  · intro net c uri r hnet hs
    unfold Embed.fromUri
    rw [hnet]
    simp only [hs, ne_eq, not_true_eq_false, if_false]
    unfold Embed.construct
    rw [isURL_encodeB64String]
    simp

theorem c10_witness :
    isURL (Embed.mk "text/plain" "TWFu").base64Data = false ∧
      (':' ∉ encodeB64 [1, 2, 3] ∧ isURL (encodeB64String [1, 2, 3]) = false) ∧
      ((fun _ : String => (.ok ⟨200, [9]⟩ : Except EmbedError HttpResponse))
          "http://e/z" = .ok ⟨200, [9]⟩ ∧
        (Embed.fromUri (fun _ => .ok ⟨200, [9]⟩) "text/plain" "http://e/z").1 =
          .ok ⟨"text/plain", encodeB64String [9]⟩) :=
  ⟨c10_invariant.1 "text/plain" "TWFu" ⟨"text/plain", "TWFu"⟩ rfl,
    c10_invariant.2.1 [1, 2, 3],
    ⟨rfl, c10_invariant.2.2 (fun _ => .ok ⟨200, [9]⟩) "text/plain" "http://e/z"
      ⟨200, [9]⟩ rfl rfl⟩⟩

end FixieSdk
